import Mathlib

/-!
Verification development for the dirtools3 repository.

The definitions below are a shallow embedding of the Python sources:

  * src/dirtools/utils.py      : the size converter (human2bytes)
  * src/dirtools/scanner.py    : SortBy, Folder._find_index,
    Folder._insert_sorted, Folder.resort, Folder.cleanup_items,
    Folder._get_attributes and the summary construction in
    Folder._insert_sorted.

Modelling conventions:

  * Python strings are modelled as List Char; slicing such as value[-2:]
    is modelled with explicit take and drop on lists with the same
    clamping behaviour as Python slices.
  * Python float values are modelled as exact rationals represented as
    numerator and denominator pairs.  The inputs proved about below only
    involve multiplications by powers of two, which are exact in IEEE
    double precision, and decimal literals whose truncated products
    agree with the exact rational result, so the exact model coincides
    with the float computation on them.
  * int(x) truncation toward zero is modelled by truncating integer
    division of the numerator by the denominator.
  * The filesystem is modelled by the FSNode tree; stat timestamps are
    rationals (fractional seconds), sizes are naturals.
  * The deque of summaries together with the running _total_size and
    _items_len counters is modelled by Store; the running counters are
    integers, as Python integers are signed and unbounded.
-/

/-- Exact value of a Python float, as numerator and positive
denominator. -/
abbrev PyNum := Int × Nat

/-- Truncation toward zero, the behaviour of Python int() applied to
the exact value p.1 / p.2 of a float. -/
def pyTrunc (p : PyNum) : Int :=
  p.1.tdiv p.2

/-- Truncation toward zero of a rational timestamp, the behaviour of
Python int() applied to a float stat field. -/
def pyInt (q : ℚ) : Int :=
  q.num.tdiv q.den

/-- Last n characters of a Python string, the slice value[-n:]; when the
string is shorter than n the whole string is returned, as in Python. -/
def lastN (n : Nat) (cs : List Char) : List Char :=
  cs.drop (cs.length - n)

/-- All but the last n characters, the slice value[:-n]; empty when the
string has at most n characters, as in Python. -/
def dropLastN (n : Nat) (cs : List Char) : List Char :=
  cs.take (cs.length - n)

/-- ASCII whitespace accepted and stripped by Python float(). -/
def isPySpace (c : Char) : Bool :=
  c == ' ' || c == '\t' || c == '\n' || c == '\x0d' || c == '\x0b' || c == '\x0c'

/-- Python str.capitalize: first character uppercased, the rest
lowercased. -/
def pyCapitalize : List Char → List Char
  | [] => []
  | c :: cs => c.toUpper :: cs.map Char.toLower

/-- Numeric value of a digit string. -/
def digitsVal (ds : List Char) : Nat :=
  ds.foldl (fun a c => a * 10 + (c.toNat - 48)) 0

/-- Parses the optional sign of a float literal. -/
def parseSign : List Char → Int × List Char
  | '+' :: r => (1, r)
  | '-' :: r => (-1, r)
  | r => (1, r)

/-- Parses the mantissa of a float literal: digits with at most one
decimal point and at least one digit.  The result is the exact value as
a numerator over a power-of-ten denominator. -/
def parseMantissa (cs : List Char) : Option (Nat × Nat) :=
  let p := cs.span (fun c => !(c == '.'))
  let ip := p.1
  match p.2 with
  | [] =>
    if ip.all Char.isDigit ∧ ip ≠ [] then some (digitsVal ip, 1) else none
  | _ :: fp =>
    if ip.all Char.isDigit ∧ fp.all Char.isDigit ∧ (ip ≠ [] ∨ fp ≠ []) then
      some (digitsVal ip * 10 ^ fp.length + digitsVal fp, 10 ^ fp.length)
    else none

/-- Parses the exponent digits of a float literal, after the e marker. -/
def parseExpDigits (cs : List Char) : Option Int :=
  let s := parseSign cs
  if s.2.all Char.isDigit ∧ s.2 ≠ [] then some (s.1 * digitsVal s.2) else none

/-- Scales an exact float value by ten to the given signed exponent. -/
def applyExp (p : PyNum) (e : Int) : PyNum :=
  if 0 ≤ e then (p.1 * 10 ^ e.toNat, p.2) else (p.1, p.2 * 10 ^ (-e).toNat)

/-- Model of Python float() on the decimal fragment of its grammar:
optional surrounding whitespace, optional sign, digits with an optional
decimal point, and an optional decimal exponent.  Underscore separators
and the inf and nan spellings are not modelled; none of the claims
involve them.  Returns none exactly when Python float() raises
ValueError on this fragment. -/
def pyFloat (cs : List Char) : Option PyNum :=
  let t := ((cs.dropWhile isPySpace).reverse.dropWhile isPySpace).reverse
  let s := parseSign t
  let q := s.2.span (fun c => !(c == 'e' || c == 'E'))
  match q.2 with
  | [] => (parseMantissa s.2).map (fun m => (s.1 * m.1, m.2))
  | _ :: es =>
    match parseMantissa q.1, parseExpDigits es with
    | some m, some e => some (applyExp (s.1 * m.1, m.2) e)
    | _, _ => none

/-- SYM_NAMES from src/dirtools/utils.py. -/
def SYM_NAMES : List (List Char) :=
  ["Byte".data, "Kb".data, "Mb".data, "Gb".data, "Tb".data,
   "Pb".data, "Xb".data, "Zb".data, "Yb".data]

/-- Index of the capitalized 2-character suffix of the value inside
SYM_NAMES, the membership test of human2bytes. -/
def symIndex (cs : List Char) : Option Nat :=
  SYM_NAMES.findIdx? (fun s => s == pyCapitalize (lastN 2 cs))

/-- Test for the Byte special condition of human2bytes: the lowercased
4-character suffix equals byte. -/
def byteSuffix (cs : List Char) : Bool :=
  (lastN 4 cs).map Char.toLower == "byte".data

/-- Model of human2bytes from src/dirtools/utils.py on character lists.
Returns none where the Python function raises ValueError.  In the
symbol branch the source computes int(num * (1 << index * 10)); here
the numerator is scaled by the same power of two before truncation. -/
def human2bytesL (cs : List Char) : Option Int :=
  match symIndex cs with
  | some index => (pyFloat (dropLastN 2 cs)).map (fun p => pyTrunc (p.1 * 2 ^ (index * 10), p.2))
  | none =>
    if byteSuffix cs then (pyFloat (dropLastN 4 cs)).map pyTrunc
    else (pyFloat cs).map pyTrunc

/-- Model of human2bytes on Lean strings. -/
def human2bytes (s : String) : Option Int :=
  human2bytesL s.data

/-- An item summary as built by Folder._insert_sorted: the dict with
keys name, size, depth, num_of_files, atime, mtime, ctime. -/
structure Item where
  name : String
  size : Nat
  depth : Nat
  num_of_files : Nat
  atime : Int
  mtime : Int
  ctime : Int
deriving DecidableEq, Repr

/-- The SortBy enumeration from src/dirtools/scanner.py. -/
inductive SortBy where
  | atime_asc | atime_desc | mtime_asc | mtime_desc | ctime_asc | ctime_desc
  | smallest | largest | least_files | most_files | least_depth | most_depth
deriving DecidableEq, Repr

/-- Folder._get_item_sort_key: the item key to sort by and the reverse
flag for each SortBy member.  Keys are read as integers; size, depth
and num_of_files are non-negative. -/
def get_item_sort_key : SortBy → (Item → Int) × Bool
  | .atime_asc => (Item.atime, false)
  | .atime_desc => (Item.atime, true)
  | .mtime_asc => (Item.mtime, false)
  | .mtime_desc => (Item.mtime, true)
  | .ctime_asc => (Item.ctime, false)
  | .ctime_desc => (Item.ctime, true)
  | .smallest => (fun it => (it.size : Int), false)
  | .largest => (fun it => (it.size : Int), true)
  | .least_files => (fun it => (it.num_of_files : Int), false)
  | .most_files => (fun it => (it.num_of_files : Int), true)
  | .least_depth => (fun it => (it.depth : Int), false)
  | .most_depth => (fun it => (it.depth : Int), true)

/-- The loop test of Folder._find_index: with reverse false the scan
stops where the new summary key is ≤ the existing key, with reverse
true where it is ≥ (written here as existing ≤ new). -/
def findTest (key : Item → Int) (rev : Bool) (summary item : Item) : Bool :=
  if rev then key item ≤ key summary else key summary ≤ key item

/-- The enumerate loop of Folder._find_index.  The counter i is the
index of the next element; when the list is exhausted it equals the
length of the whole list.  The Python fallback expression
(index if index == 0 else index + 1) is evaluated with index being the
last enumerated position, that is i - 1 for a non-empty list and 0 for
an empty one, so it equals 0 when i ≤ 1 and i otherwise. -/
def findIndexGo (key : Item → Int) (rev : Bool) (summary : Item) :
    List Item → Nat → Nat
  | [], i => if i ≤ 1 then 0 else i
  | x :: xs, i =>
    if findTest key rev summary x then i else findIndexGo key rev summary xs (i + 1)

/-- Folder._find_index: the index at which a new summary is inserted
into the current items. -/
def find_index (sort_by : SortBy) (summary : Item) (items : List Item) : Nat :=
  let p := get_item_sort_key sort_by
  findIndexGo p.1 p.2 summary items 0

/-- The mutable state of a Folder: the _items deque and the running
_total_size and _items_len counters. -/
structure Store where
  items : List Item
  total_size : Int
  items_len : Int
deriving DecidableEq, Repr

/-- The empty store set up in Folder.__init__. -/
def emptyStore : Store :=
  ⟨[], 0, 0⟩

/-- The bookkeeping and insertion part of Folder._insert_sorted: find
the index, add the size to _total_size, bump _items_len, and insert the
summary at the index.  Python deque.insert clamps an index beyond the
end, and find_index never returns an index beyond the end, so
List.insertIdx performs the same insertion. -/
def insert_sorted (sort_by : SortBy) (summary : Item) (s : Store) : Store :=
  let index := find_index sort_by summary s.items
  ⟨s.items.insertIdx index summary,
   s.total_size + summary.size,
   s.items_len + 1⟩

/-- Folder.resort on the items sequence: Python sorted() is a stable
sort by the key, reversed for the descending criteria.  Python
documents sorted(reverse := true) as stable as well: equal elements
keep their original order while comparisons are reversed.  A stable
sort by a total preorder is unique, so the stable insertionSort with
the corresponding relation computes the same sequence. -/
def resortList (sort_by : SortBy) (items : List Item) : List Item :=
  let p := get_item_sort_key sort_by
  if p.2 then items.insertionSort (fun a b => p.1 b ≤ p.1 a)
  else items.insertionSort (fun a b => p.1 a ≤ p.1 b)

/-- Folder.resort on the store: only the _items sequence is replaced. -/
def resort (sort_by : SortBy) (s : Store) : Store :=
  { s with items := resortList sort_by s.items }

/-- The scanning pipeline of Folder._scan, given the summaries in the
order the walker discovered them: every summary is inserted on the fly
with _insert_sorted, then the final authoritative resort runs. -/
def scan_items (sort_by : SortBy) (discovered : List Item) : Store :=
  resort sort_by (discovered.foldl (fun s x => insert_sorted sort_by x s) emptyStore)

/-- Failure cases of the eviction loop: popping from an exhausted deque
(IndexError) and a failing physical deletion (an OSError other than
NotADirectoryError, such as permission denied). -/
inductive CleanupErr where
  | popEmpty | deleteFailed
deriving DecidableEq, Repr

/-- Result of running the eviction generator to exhaustion or to its
first error: the yielded items in order, the final store, the final
disk contents, and the error if one escaped. -/
structure CleanupResult where
  yielded : List Item
  store : Store
  disk : String → Bool
  err : Option CleanupErr

/-- The eviction loop of Folder.cleanup_items.  The disk is the set of
item names that exist on disk; fails tells which physical deletions
raise.  Each round first checks the guard total_size > max_total_size,
then pops the front item, decrements _total_size and _items_len, and
only then attempts the physical deletion: on failure the store keeps
the decremented bookkeeping, the disk is untouched for that item, no
further item is processed and the error escapes; on success the item
name is removed from the disk and the item is yielded. -/
def cleanupGo (fails : Item → Bool) (max_total_size : Int) :
    List Item → Int → Int → (String → Bool) → CleanupResult
  | [], total, len, disk =>
    if total ≤ max_total_size then ⟨[], ⟨[], total, len⟩, disk, none⟩
    else ⟨[], ⟨[], total, len⟩, disk, some .popEmpty⟩
  | x :: rest, total, len, disk =>
    if total ≤ max_total_size then ⟨[], ⟨x :: rest, total, len⟩, disk, none⟩
    else
      let total := total - x.size
      let len := len - 1
      if fails x then ⟨[], ⟨rest, total, len⟩, disk, some .deleteFailed⟩
      else
        let disk := fun n => if n = x.name then false else disk n
        let r := cleanupGo fails max_total_size rest total len disk
        ⟨x :: r.yielded, r.store, r.disk, r.err⟩

/-- Folder.cleanup_items on a store and a disk. -/
def cleanup_items (fails : Item → Bool) (max_total_size : Int) (s : Store)
    (disk : String → Bool) : CleanupResult :=
  cleanupGo fails max_total_size s.items s.total_size s.items_len disk

/-- The consistency invariant of the store: the running total is the
sum of the item sizes and the running length is the number of items. -/
def StoreInv (s : Store) : Prop :=
  s.total_size = (s.items.map (fun x => (x.size : Int))).sum ∧
    s.items_len = s.items.length

/-- Filesystem metadata of one directory entry: st_size and the three
stat timestamps in fractional seconds. -/
structure Stat where
  size : Nat
  atime : ℚ
  mtime : ℚ
  ctime : ℚ
deriving DecidableEq, Repr

/-- A filesystem subtree: a file (or symlink, which the scanner treats
the same with follow_symlinks false) carrying its stat, or a directory
carrying its own stat and its entries in scandir order. -/
inductive FSNode where
  | file (st : Stat)
  | dir (st : Stat) (children : List FSNode)

/-- The stat of the node itself, item.stat(follow_symlinks=False). -/
def FSNode.stat : FSNode → Stat
  | .file st => st
  | .dir st _ => st

/-- The result dict of Folder._get_attributes. -/
structure Attrs where
  size : Nat
  depth : Nat
  num_of_files : Nat
  atime : Int
  mtime : Int
  ctime : Int
deriving DecidableEq, Repr

mutual
/-- Folder._get_attributes.  The parameter d is the relative depth of
the node below the scan level, the value of
_get_depth(item.path) - _level for this node: files and symlinks report
their stat size, their relative depth, one file and their truncated
timestamps; a directory accumulates over its entries starting from all
zeroes, summing size and num_of_files and maximising depth and the
three timestamps. -/
def get_attributes : FSNode → Nat → Attrs
  | .file st, d => ⟨st.size, d, 1, pyInt st.atime, pyInt st.mtime, pyInt st.ctime⟩
  | .dir _ cs, d => getAttrsChildren cs d ⟨0, 0, 0, 0, 0, 0⟩

/-- The scandir accumulation loop inside the directory branch of
Folder._get_attributes; children sit one path level deeper. -/
def getAttrsChildren : List FSNode → Nat → Attrs → Attrs
  | [], _, acc => acc
  | c :: cs, d, acc =>
    let a := get_attributes c (d + 1)
    getAttrsChildren cs d
      ⟨acc.size + a.size, max acc.depth a.depth, acc.num_of_files + a.num_of_files,
       max acc.atime a.atime, max acc.mtime a.mtime, max acc.ctime a.ctime⟩
end

mutual
/-- The stats of all files in a subtree, in traversal order. -/
def filesOf : FSNode → List Stat
  | .file st => [st]
  | .dir _ cs => filesOfForest cs

/-- The stats of all files in a forest of subtrees. -/
def filesOfForest : List FSNode → List Stat
  | [] => []
  | c :: cs => filesOf c ++ filesOfForest cs
end

/-- The summary construction of Folder._insert_sorted: compute the
attributes, and when all three aggregated timestamps are zero replace
them with the truncated timestamps of the entry itself. -/
def make_summary (name : String) (node : FSNode) (d : Nat) : Item :=
  let attrs := get_attributes node d
  let attrs :=
    if attrs.atime = 0 ∧ attrs.mtime = 0 ∧ attrs.ctime = 0 then
      { attrs with
          atime := pyInt node.stat.atime,
          mtime := pyInt node.stat.mtime,
          ctime := pyInt node.stat.ctime }
    else attrs
  ⟨name, attrs.size, attrs.depth, attrs.num_of_files,
   attrs.atime, attrs.mtime, attrs.ctime⟩

/-- The maximum of one truncated timestamp field over all files of a
subtree, zero when the subtree holds no file.  This is the notion of a
field maximised independently across the subtree from the spec. -/
def subtreeMax (f : Stat → ℚ) (n : FSNode) : Int :=
  (filesOf n).foldr (fun st m => max (pyInt (f st)) m) 0

mutual
/-- Modelled from the spec: the directory depth rule as the claim
states it, depth = 1 + max over children, floored at 0 for an empty
directory, with files at depth 0.  Used only to compare the claimed
rule against get_attributes. -/
def spec_depth : FSNode → Nat
  | .file _ => 0
  | .dir _ [] => 0
  | .dir _ (c :: cs) => 1 + spec_depth_forest (c :: cs)

/-- Maximum of spec_depth over a forest. -/
def spec_depth_forest : List FSNode → Nat
  | [] => 0
  | c :: cs => max (spec_depth c) (spec_depth_forest cs)
end

/-! Helper lemmas shared between the claim theorems. -/

section CleanupHelpers

/-- Equation for the eviction loop on an exhausted deque below the
threshold. -/
theorem cleanupGo_nil_le {fails : Item → Bool} {T total len : Int}
    {disk : String → Bool} (h : total ≤ T) :
    cleanupGo fails T [] total len disk = ⟨[], ⟨[], total, len⟩, disk, none⟩ := by
  simp [cleanupGo, h]

/-- Equation for the eviction loop on an exhausted deque above the
threshold: the popleft raises IndexError. -/
theorem cleanupGo_nil_gt {fails : Item → Bool} {T total len : Int}
    {disk : String → Bool} (h : ¬total ≤ T) :
    cleanupGo fails T [] total len disk = ⟨[], ⟨[], total, len⟩, disk, some .popEmpty⟩ := by
  simp [cleanupGo, h]

/-- Equation for the eviction loop when the guard stops it. -/
theorem cleanupGo_cons_le {fails : Item → Bool} {T total len : Int}
    {disk : String → Bool} {x : Item} {xs : List Item} (h : total ≤ T) :
    cleanupGo fails T (x :: xs) total len disk = ⟨[], ⟨x :: xs, total, len⟩, disk, none⟩ := by
  simp [cleanupGo, h]

/-- Equation for the eviction loop when the front deletion raises: the
bookkeeping for the front item is already decremented, the disk is
untouched and the error escapes. -/
theorem cleanupGo_cons_fail {fails : Item → Bool} {T total len : Int}
    {disk : String → Bool} {x : Item} {xs : List Item}
    (h : ¬total ≤ T) (hx : fails x = true) :
    cleanupGo fails T (x :: xs) total len disk
      = ⟨[], ⟨xs, total - x.size, len - 1⟩, disk, some .deleteFailed⟩ := by
  simp [cleanupGo, h, hx]

/-- Equation for the eviction loop when the front deletion succeeds:
the front item is yielded ahead of the recursive run on the shrunken
store and the disk without its name. -/
theorem cleanupGo_cons_ok {fails : Item → Bool} {T total len : Int}
    {disk : String → Bool} {x : Item} {xs : List Item}
    (h : ¬total ≤ T) (hx : fails x = false) :
    cleanupGo fails T (x :: xs) total len disk
      = ⟨x :: (cleanupGo fails T xs (total - x.size) (len - 1)
               (fun n => if n = x.name then false else disk n)).yielded,
         (cleanupGo fails T xs (total - x.size) (len - 1)
           (fun n => if n = x.name then false else disk n)).store,
         (cleanupGo fails T xs (total - x.size) (len - 1)
           (fun n => if n = x.name then false else disk n)).disk,
         (cleanupGo fails T xs (total - x.size) (len - 1)
           (fun n => if n = x.name then false else disk n)).err⟩ := by
  rw [cleanupGo, if_neg h, hx]
  simp

/-- Once a name is gone from the disk it stays gone for the rest of the
eviction loop. -/
theorem cleanupGo_disk_mono (fails : Item → Bool) (T : Int) :
    ∀ (l : List Item) (total len : Int) (disk : String → Bool) (n : String),
      disk n = false →
      (cleanupGo fails T l total len disk).disk n = false := by
  intro l
  induction l with
  | nil =>
    intro total len disk n h
    by_cases hg : total ≤ T
    · rw [cleanupGo_nil_le hg]; exact h
    · rw [cleanupGo_nil_gt hg]; exact h
  | cons x xs ih =>
    intro total len disk n h
    by_cases hg : total ≤ T
    · rw [cleanupGo_cons_le hg]; exact h
    · cases hx : fails x with
      | true => rw [cleanupGo_cons_fail hg hx]; exact h
      | false =>
        rw [cleanupGo_cons_ok hg hx]
        exact ih _ _ _ n (by simp [h])

/-- Every item yielded by the eviction loop has already had its name
removed from the disk by the time the loop stops. -/
theorem cleanupGo_yielded_deleted (fails : Item → Bool) (T : Int) :
    ∀ (l : List Item) (total len : Int) (disk : String → Bool),
      ∀ y ∈ (cleanupGo fails T l total len disk).yielded,
        (cleanupGo fails T l total len disk).disk y.name = false := by
  intro l
  induction l with
  | nil =>
    intro total len disk y hy
    by_cases h : total ≤ T
    · rw [cleanupGo_nil_le h] at hy; simp at hy
    · rw [cleanupGo_nil_gt h] at hy; simp at hy
  | cons x xs ih =>
    intro total len disk y hy
    by_cases h : total ≤ T
    · rw [cleanupGo_cons_le h] at hy; simp at hy
    · cases hx : fails x with
      | true => rw [cleanupGo_cons_fail h hx] at hy; simp at hy
      | false =>
        rw [cleanupGo_cons_ok h hx] at hy ⊢
        simp only [List.mem_cons] at hy
        rcases hy with hy | hy
        · subst hy
          exact cleanupGo_disk_mono fails T xs _ _ _ y.name (by simp)
        · exact ih _ _ _ y hy

/-- Characterization of a run of the eviction loop that stops with a
deletion failure: some item at position k fails, everything before it
was successfully evicted and yielded, the store has dropped the first
k + 1 items with their sizes and count subtracted, and nothing after
position k was touched. -/
theorem cleanupGo_fail_char (fails : Item → Bool) (T : Int) :
    ∀ (l : List Item) (total len : Int) (disk : String → Bool),
      (cleanupGo fails T l total len disk).err = some .deleteFailed →
      ∃ k x, l[k]? = some x ∧ fails x = true
        ∧ (cleanupGo fails T l total len disk).yielded = l.take k
        ∧ (cleanupGo fails T l total len disk).store.items = l.drop (k + 1)
        ∧ (cleanupGo fails T l total len disk).store.total_size
            = total - ((l.take (k + 1)).map (fun i => (i.size : Int))).sum
        ∧ (cleanupGo fails T l total len disk).store.items_len = len - (k + 1)
        ∧ ∀ y ∈ (cleanupGo fails T l total len disk).yielded, fails y = false := by
  intro l
  induction l with
  | nil =>
    intro total len disk herr
    by_cases h : total ≤ T
    · rw [cleanupGo_nil_le h] at herr; simp at herr
    · rw [cleanupGo_nil_gt h] at herr; simp at herr
  | cons x xs ih =>
    intro total len disk herr
    by_cases h : total ≤ T
    · rw [cleanupGo_cons_le h] at herr; simp at herr
    · cases hx : fails x with
      | true =>
        rw [cleanupGo_cons_fail h hx] at herr ⊢
        refine ⟨0, x, by simp, hx, rfl, by simp, by simp, by simp [sub_eq_add_neg], by simp⟩
      | false =>
        have herr2 : (cleanupGo fails T xs (total - x.size) (len - 1)
            (fun n => if n = x.name then false else disk n)).err
              = some .deleteFailed := by
          rw [cleanupGo_cons_ok h hx] at herr
          exact herr
        obtain ⟨k, x', hget, hfx, hy, hitems, hts, hlen, hprev⟩ := ih _ _ _ herr2
        rw [cleanupGo_cons_ok h hx]
        refine ⟨k + 1, x', by simpa using hget, hfx, ?_, ?_, ?_, ?_, ?_⟩
        · show x :: _ = _
          rw [List.take_succ_cons, hy]
        · show (cleanupGo fails T xs (total - x.size) (len - 1)
            (fun n => if n = x.name then false else disk n)).store.items = _
          rw [hitems, List.drop_succ_cons]
        · show (cleanupGo fails T xs (total - x.size) (len - 1)
            (fun n => if n = x.name then false else disk n)).store.total_size = _
          rw [hts, List.take_succ_cons, List.map_cons, List.sum_cons]
          omega
        · show (cleanupGo fails T xs (total - x.size) (len - 1)
            (fun n => if n = x.name then false else disk n)).store.items_len = _
          rw [hlen]
          push_cast
          omega
        · show ∀ y ∈ x :: (cleanupGo fails T xs (total - x.size) (len - 1)
            (fun n => if n = x.name then false else disk n)).yielded, fails y = false
          intro y hy'
          rcases List.mem_cons.1 hy' with hy' | hy'
          · subst hy'; exact hx
          · exact hprev y hy'

/-- Characterization of a run of the eviction loop in which no physical
deletion fails and the threshold is non-negative, starting from
consistent counters: the loop stops without error, the final total is
at or below the threshold, the yielded items are an initial segment of
the sequence, and the remaining items are the matching final segment. -/
theorem cleanupGo_no_fail (fails : Item → Bool) (hf : ∀ x, fails x = false)
    (T : Int) (hT : 0 ≤ T) :
    ∀ (l : List Item) (disk : String → Bool),
      (cleanupGo fails T l ((l.map (fun x => (x.size : Int))).sum) l.length disk).err = none
      ∧ (cleanupGo fails T l ((l.map (fun x => (x.size : Int))).sum) l.length disk).store.total_size ≤ T
      ∧ ∃ k,
        (cleanupGo fails T l ((l.map (fun x => (x.size : Int))).sum) l.length disk).yielded = l.take k
        ∧ (cleanupGo fails T l ((l.map (fun x => (x.size : Int))).sum) l.length disk).store.items = l.drop k := by
  intro l
  induction l with
  | nil =>
    intro disk
    rw [show ((List.map (fun x : Item => (x.size : Int)) []).sum) = 0 by simp]
    rw [cleanupGo_nil_le (by simpa using hT)]
    exact ⟨rfl, by simpa using hT, 0, rfl, rfl⟩
  | cons x xs ih =>
    intro disk
    by_cases h : ((x :: xs).map (fun x => (x.size : Int))).sum ≤ T
    · rw [cleanupGo_cons_le h]
      exact ⟨rfl, h, 0, rfl, rfl⟩
    · rw [cleanupGo_cons_ok h (hf x)]
      have harith : ((x :: xs).map (fun x => (x.size : Int))).sum - x.size
          = (xs.map (fun x => (x.size : Int))).sum := by simp
      have hlen : ((x :: xs).length : Int) - 1 = (xs.length : Int) := by
        simp [Int.add_sub_cancel]
      rw [harith, hlen]
      obtain ⟨herr, hts, k, hy, hitems⟩ := ih (fun n => if n = x.name then false else disk n)
      refine ⟨herr, hts, k + 1, ?_, ?_⟩
      · show x :: _ = _
        rw [List.take_succ_cons, hy]
      · show (cleanupGo fails T xs ((xs.map (fun x => (x.size : Int))).sum) xs.length
          (fun n => if n = x.name then false else disk n)).store.items = _
        rw [hitems, List.drop_succ_cons]

end CleanupHelpers

section EqualKeyHelpers

/-- When the new summary has the same key as the head of the list, the
scan of find_index stops at position zero. -/
theorem find_index_cons_equal (sort_by : SortBy) (summary y : Item) (l : List Item)
    (h : (get_item_sort_key sort_by).1 summary = (get_item_sort_key sort_by).1 y) :
    find_index sort_by summary (y :: l) = 0 := by
  simp only [find_index, findIndexGo, findTest]
  split <;> simp [h]

/-- Inserting a run of summaries whose keys all agree with each other
and with the current contents pushes each one on the front, so the
items end up in reverse discovery order. -/
theorem foldl_insert_equal (sort_by : SortBy) (c : Int) :
    ∀ (xs : List Item) (s : Store),
      (∀ x ∈ xs, (get_item_sort_key sort_by).1 x = c) →
      (∀ y ∈ s.items, (get_item_sort_key sort_by).1 y = c) →
      (xs.foldl (fun s x => insert_sorted sort_by x s) s).items = xs.reverse ++ s.items := by
  intro xs
  induction xs with
  | nil => intro s _ _; simp
  | cons x xs ih =>
    intro s hxs hs
    have hins : (insert_sorted sort_by x s).items = x :: s.items := by
      cases hl : s.items with
      | nil => simp [insert_sorted, find_index, findIndexGo, hl]
      | cons y ys =>
        have hidx : find_index sort_by x (y :: ys) = 0 :=
          find_index_cons_equal sort_by x y ys
            (by rw [hxs x (by simp), hs y (by rw [hl]; simp)])
        simp [insert_sorted, hl, hidx]
    rw [List.foldl_cons, ih _ (fun a ha => hxs a (by simp [ha]))
      (by intro y hy; rw [hins] at hy; rcases List.mem_cons.1 hy with h | h
          · subst h; exact hxs y (by simp)
          · exact hs y h),
      hins]
    simp

/-- A relation that holds between any two members of a list holds
pairwise along it. -/
theorem pairwise_of_forall_mem_rel (r : Item → Item → Prop) :
    ∀ (l : List Item), (∀ a ∈ l, ∀ b ∈ l, r a b) → l.Pairwise r
  | [], _ => List.Pairwise.nil
  | x :: xs, h =>
    List.Pairwise.cons (fun b hb => h x (by simp) b (by simp [hb]))
      (pairwise_of_forall_mem_rel r xs
        (fun a ha b hb => h a (by simp [ha]) b (by simp [hb])))

/-- A list whose keys are all equal is already sorted for the active
criterion, so the final resort leaves it untouched. -/
theorem resortList_equal (sort_by : SortBy) (c : Int) (l : List Item)
    (h : ∀ x ∈ l, (get_item_sort_key sort_by).1 x = c) :
    resortList sort_by l = l := by
  simp only [resortList]
  split
  · exact List.Sorted.insertionSort_eq
      (pairwise_of_forall_mem_rel _ l (fun a ha b hb => by rw [h a ha, h b hb]))
  · exact List.Sorted.insertionSort_eq
      (pairwise_of_forall_mem_rel _ l (fun a ha b hb => by rw [h a ha, h b hb]))

end EqualKeyHelpers

section AggregatorHelpers

/-- The size accumulated by the scandir loop is the accumulator plus
the sum of the children sizes. -/
theorem getAttrsChildren_size :
    ∀ (cs : List FSNode) (d : Nat) (acc : Attrs),
      (getAttrsChildren cs d acc).size
        = acc.size + (cs.map (fun c => (get_attributes c (d + 1)).size)).sum
  | [], _, _ => by simp [getAttrsChildren]
  | c :: cs, d, acc => by
    rw [getAttrsChildren, getAttrsChildren_size cs d _]
    simp only [List.map_cons, List.sum_cons]
    omega

/-- The file count accumulated by the scandir loop is the accumulator
plus the sum of the children counts. -/
theorem getAttrsChildren_num :
    ∀ (cs : List FSNode) (d : Nat) (acc : Attrs),
      (getAttrsChildren cs d acc).num_of_files
        = acc.num_of_files + (cs.map (fun c => (get_attributes c (d + 1)).num_of_files)).sum
  | [], _, _ => by simp [getAttrsChildren]
  | c :: cs, d, acc => by
    rw [getAttrsChildren, getAttrsChildren_num cs d _]
    simp only [List.map_cons, List.sum_cons]
    omega

/-- The depth accumulated by the scandir loop is the maximum of the
accumulator and of all the children depths. -/
theorem getAttrsChildren_depth :
    ∀ (cs : List FSNode) (d : Nat) (acc : Attrs),
      (getAttrsChildren cs d acc).depth
        = max acc.depth ((cs.map (fun c => (get_attributes c (d + 1)).depth)).foldr max 0)
  | [], _, _ => by simp [getAttrsChildren]
  | c :: cs, d, acc => by
    rw [getAttrsChildren, getAttrsChildren_depth cs d _]
    simp only [List.map_cons, List.foldr_cons]
    omega

/-- Maximum of a truncated timestamp field over a list of stats, with
an explicit starting value. -/
def tsMax (g : Stat → ℚ) (xs : List Stat) (b : Int) : Int :=
  xs.foldr (fun st m => max (pyInt (g st)) m) b

/-- subtreeMax is tsMax over the files of the subtree started at 0. -/
theorem subtreeMax_eq_tsMax (f : Stat → ℚ) (n : FSNode) :
    subtreeMax f n = tsMax f (filesOf n) 0 := rfl

/-- tsMax over an appended list folds through the right part first. -/
theorem tsMax_append (g : Stat → ℚ) (xs ys : List Stat) (b : Int) :
    tsMax g (xs ++ ys) b = tsMax g xs (tsMax g ys b) := by
  simp [tsMax, List.foldr_append]

/-- tsMax started at 0 is non-negative. -/
theorem tsMax_nonneg (g : Stat → ℚ) :
    ∀ (xs : List Stat), 0 ≤ tsMax g xs 0
  | [] => le_refl 0
  | x :: xs => by
    simp only [tsMax, List.foldr_cons]
    exact le_trans (tsMax_nonneg g xs) (le_max_right _ _)

/-- A non-negative starting value factors out of tsMax as a max. -/
theorem tsMax_init (g : Stat → ℚ) :
    ∀ (xs : List Stat) (b : Int), 0 ≤ b → tsMax g xs b = max (tsMax g xs 0) b
  | [], b, hb => by simp [tsMax, max_eq_right hb]
  | x :: xs, b, hb => by
    simp only [tsMax, List.foldr_cons]
    rw [show List.foldr (fun st m => max (pyInt (g st)) m) b xs = tsMax g xs b from rfl,
      show List.foldr (fun st m => max (pyInt (g st)) m) 0 xs = tsMax g xs 0 from rfl,
      tsMax_init g xs b hb, max_assoc]

/-- Truncation of a non-negative rational stays non-negative. -/
theorem pyInt_nonneg {q : ℚ} (h : 0 ≤ q) : 0 ≤ pyInt q :=
  Int.tdiv_nonneg (Rat.num_nonneg.2 h) (Int.ofNat_nonneg q.den)

mutual
/-- The three aggregated timestamps of a node are each the maximum of
the truncated stat field over all the files of its subtree, provided
all those file timestamps are non-negative. -/
theorem get_attributes_times : ∀ (n : FSNode) (d : Nat),
    (∀ st ∈ filesOf n, 0 ≤ st.atime ∧ 0 ≤ st.mtime ∧ 0 ≤ st.ctime) →
    (get_attributes n d).atime = subtreeMax Stat.atime n
    ∧ (get_attributes n d).mtime = subtreeMax Stat.mtime n
    ∧ (get_attributes n d).ctime = subtreeMax Stat.ctime n
  | .file st, d, h => by
    have hst := h st (by simp [filesOf])
    simp only [get_attributes, subtreeMax_eq_tsMax, filesOf, tsMax, List.foldr_cons,
      List.foldr_nil]
    exact ⟨(max_eq_left (pyInt_nonneg hst.1)).symm,
           (max_eq_left (pyInt_nonneg hst.2.1)).symm,
           (max_eq_left (pyInt_nonneg hst.2.2)).symm⟩
  | .dir st cs, d, h => by
    have hfor := getAttrsChildren_times cs d ⟨0, 0, 0, 0, 0, 0⟩ (by simpa [filesOf] using h)
      (le_refl 0) (le_refl 0) (le_refl 0)
    refine ⟨?_, ?_, ?_⟩
    · show (getAttrsChildren cs d ⟨0, 0, 0, 0, 0, 0⟩).atime = _
      rw [hfor.1, subtreeMax_eq_tsMax,
        show filesOf (.dir st cs) = filesOfForest cs from rfl,
        max_eq_right (tsMax_nonneg _ _)]
    · show (getAttrsChildren cs d ⟨0, 0, 0, 0, 0, 0⟩).mtime = _
      rw [hfor.2.1, subtreeMax_eq_tsMax,
        show filesOf (.dir st cs) = filesOfForest cs from rfl,
        max_eq_right (tsMax_nonneg _ _)]
    · show (getAttrsChildren cs d ⟨0, 0, 0, 0, 0, 0⟩).ctime = _
      rw [hfor.2.2, subtreeMax_eq_tsMax,
        show filesOf (.dir st cs) = filesOfForest cs from rfl,
        max_eq_right (tsMax_nonneg _ _)]

/-- The timestamps accumulated by the scandir loop are the maximum of
the accumulator and of the truncated stat fields over the files of the
forest, provided all those file timestamps are non-negative and the
accumulator fields are non-negative. -/
theorem getAttrsChildren_times : ∀ (cs : List FSNode) (d : Nat) (acc : Attrs),
    (∀ st ∈ filesOfForest cs, 0 ≤ st.atime ∧ 0 ≤ st.mtime ∧ 0 ≤ st.ctime) →
    0 ≤ acc.atime → 0 ≤ acc.mtime → 0 ≤ acc.ctime →
    (getAttrsChildren cs d acc).atime = max acc.atime (tsMax Stat.atime (filesOfForest cs) 0)
    ∧ (getAttrsChildren cs d acc).mtime = max acc.mtime (tsMax Stat.mtime (filesOfForest cs) 0)
    ∧ (getAttrsChildren cs d acc).ctime = max acc.ctime (tsMax Stat.ctime (filesOfForest cs) 0)
  | [], _, acc, _, ha, hm, hc => by
    simp only [getAttrsChildren, filesOfForest, tsMax, List.foldr_nil]
    exact ⟨(max_eq_left ha).symm, (max_eq_left hm).symm, (max_eq_left hc).symm⟩
  | c :: cs, d, acc, h, ha, hm, hc => by
    have hchild := get_attributes_times c (d + 1)
      (fun st hst => h st (by simp [filesOfForest, hst]))
    have hrest := getAttrsChildren_times cs d
      ⟨acc.size + (get_attributes c (d + 1)).size,
       max acc.depth (get_attributes c (d + 1)).depth,
       acc.num_of_files + (get_attributes c (d + 1)).num_of_files,
       max acc.atime (get_attributes c (d + 1)).atime,
       max acc.mtime (get_attributes c (d + 1)).mtime,
       max acc.ctime (get_attributes c (d + 1)).ctime⟩
      (fun st hst => h st (by simp [filesOfForest, hst]))
      (le_trans ha (le_max_left _ _)) (le_trans hm (le_max_left _ _))
      (le_trans hc (le_max_left _ _))
    rw [getAttrsChildren]
    refine ⟨?_, ?_, ?_⟩
    · rw [hrest.1]
      show max (max acc.atime (get_attributes c (d + 1)).atime) _ = _
      rw [hchild.1, subtreeMax_eq_tsMax,
        show filesOfForest (c :: cs) = filesOf c ++ filesOfForest cs from rfl,
        tsMax_append, tsMax_init Stat.atime (filesOf c) _ (tsMax_nonneg _ _), max_assoc]
    · rw [hrest.2.1]
      show max (max acc.mtime (get_attributes c (d + 1)).mtime) _ = _
      rw [hchild.2.1, subtreeMax_eq_tsMax,
        show filesOfForest (c :: cs) = filesOf c ++ filesOfForest cs from rfl,
        tsMax_append, tsMax_init Stat.mtime (filesOf c) _ (tsMax_nonneg _ _), max_assoc]
    · rw [hrest.2.2]
      show max (max acc.ctime (get_attributes c (d + 1)).ctime) _ = _
      rw [hchild.2.2, subtreeMax_eq_tsMax,
        show filesOfForest (c :: cs) = filesOf c ++ filesOfForest cs from rfl,
        tsMax_append, tsMax_init Stat.ctime (filesOf c) _ (tsMax_nonneg _ _), max_assoc]
end

end AggregatorHelpers

/-- The counter in findIndexGo only grows to the end of the list, so
the returned index never exceeds the position one past the last
element. -/
theorem findIndexGo_le (key : Item → Int) (rev : Bool) (summary : Item) :
    ∀ (l : List Item) (i : Nat), findIndexGo key rev summary l i ≤ i + l.length := by
  intro l
  induction l with
  | nil =>
    intro i
    simp only [findIndexGo, List.length_nil, Nat.add_zero]
    split <;> omega
  | cons x xs ih =>
    intro i
    simp only [findIndexGo, List.length_cons]
    split
    · omega
    · have := ih (i + 1)
      omega

/-- find_index never returns a position beyond the end of the list. -/
theorem find_index_le_length (sort_by : SortBy) (summary : Item) (items : List Item) :
    find_index sort_by summary items ≤ items.length := by
  have := findIndexGo_le (get_item_sort_key sort_by).1 (get_item_sort_key sort_by).2
    summary items 0
  simpa [find_index] using this

/-- Inserting at an index within the list is a permutation of pushing
the element on the front. -/
theorem insertIdx_perm (x : Item) :
    ∀ (idx : Nat) (l : List Item), idx ≤ l.length → (l.insertIdx idx x).Perm (x :: l) := by
  intro idx
  induction idx with
  | zero => intro l _; simp
  | succ n ih =>
    intro l hl
    cases l with
    | nil => simp at hl
    | cons y ys =>
      simp only [List.insertIdx_succ_cons]
      exact ((ih ys (by simpa using hl)).cons y).trans (List.Perm.swap x y ys)

/-- insert_sorted preserves the consistency of the running counters. -/
theorem insert_sorted_inv (sort_by : SortBy) (summary : Item) (s : Store)
    (h : StoreInv s) : StoreInv (insert_sorted sort_by summary s) := by
  obtain ⟨hts, hlen⟩ := h
  have hperm := insertIdx_perm summary (find_index sort_by summary s.items) s.items
    (find_index_le_length sort_by summary s.items)
  constructor
  · have := (hperm.map (fun x => (x.size : Int))).sum_eq
    simp only [insert_sorted, this, List.map_cons, List.sum_cons]
    omega
  · have := hperm.length_eq
    simp only [insert_sorted, this, List.length_cons]
    omega

/-- The resorted sequence is a permutation of the original. -/
theorem resortList_perm (sort_by : SortBy) (items : List Item) :
    (resortList sort_by items).Perm items := by
  simp only [resortList]
  split
  · exact List.perm_insertionSort _ items
  · exact List.perm_insertionSort _ items

/-- resort preserves the consistency of the running counters. -/
theorem resort_inv (sort_by : SortBy) (s : Store) (h : StoreInv s) :
    StoreInv (resort sort_by s) := by
  obtain ⟨hts, hlen⟩ := h
  have hperm := resortList_perm sort_by s.items
  exact ⟨by rw [resort, hts, (hperm.map (fun x => (x.size : Int))).sum_eq],
         by rw [resort, hlen, hperm.length_eq]⟩

/-- The insertion fold of the scan preserves the consistency of the
running counters. -/
theorem foldl_insert_inv (sort_by : SortBy) (xs : List Item) :
    ∀ (s : Store), StoreInv s →
      StoreInv (xs.foldl (fun s x => insert_sorted sort_by x s) s) := by
  induction xs with
  | nil => intro s h; exact h
  | cons x xs ih =>
    intro s h
    exact ih _ (insert_sorted_inv sort_by x s h)

/-- Any store produced by a complete scan satisfies the consistency
invariant. -/
theorem scan_items_inv (sort_by : SortBy) (xs : List Item) :
    StoreInv (scan_items sort_by xs) :=
  resort_inv sort_by _ (foldl_insert_inv sort_by xs emptyStore ⟨rfl, rfl⟩)

/-- The eviction loop preserves the consistency of the running
counters. -/
theorem cleanupGo_inv (fails : Item → Bool) (T : Int) :
    ∀ (l : List Item) (disk : String → Bool),
      StoreInv ⟨l, (l.map (fun x => (x.size : Int))).sum, l.length⟩ →
      StoreInv (cleanupGo fails T l ((l.map (fun x => (x.size : Int))).sum) l.length disk).store := by
  intro l
  induction l with
  | nil =>
    intro disk _
    simp only [cleanupGo]
    split <;> exact ⟨rfl, rfl⟩
  | cons x xs ih =>
    intro disk _
    simp only [cleanupGo, List.map_cons, List.sum_cons, List.length_cons]
    split
    · exact ⟨rfl, rfl⟩
    · have harith : (x.size : Int) + (xs.map (fun x => (x.size : Int))).sum - x.size
          = (xs.map (fun x => (x.size : Int))).sum := by omega
      have hlen : ((xs.length : Int) + 1) - 1 = (xs.length : Int) := by omega
      split
      · exact ⟨by simp [harith], by simp [hlen]⟩
      · have := ih (fun n => if n = x.name then false else disk n) ⟨rfl, rfl⟩
        simpa [harith, hlen] using this


/-! The claim theorems. -/

/-- C1: the claim states that when the new item is not better than any
existing entry, find_index appends at the tail, the returned index
equalling the current length, including for a one-entry store.  The
code evaluates differently on a one-entry store: with SMALLEST
(size ascending) and a new summary of size 9 scanned against a single
entry of size 5, no position matches, and _find_index returns 0, the
head position, not the length 1.  This evaluation exhibits the
divergence between the code and the claim. -/
theorem C1_find_index_singleton_head :
    find_index .smallest ⟨"new", 9, 0, 1, 0, 0, 0⟩ [⟨"old", 5, 0, 1, 0, 0, 0⟩] = 0
    ∧ ([(⟨"old", 5, 0, 1, 0, 0, 0⟩ : Item)] : List Item).length = 1
    ∧ find_index .smallest ⟨"new", 9, 0, 1, 0, 0, 0⟩ [⟨"old", 5, 0, 1, 0, 0, 0⟩]
        ≠ ([(⟨"old", 5, 0, 1, 0, 0, 0⟩ : Item)] : List Item).length := by
  decide

/-- Discovery order used as a concrete counterexample input for C2:
five sibling files of 1024 bytes each, named in discovery order. -/
def exC2 : List Item :=
  [⟨"f1", 1024, 0, 1, 0, 0, 0⟩, ⟨"f2", 1024, 0, 1, 0, 0, 0⟩, ⟨"f3", 1024, 0, 1, 0, 0, 0⟩,
   ⟨"f4", 1024, 0, 1, 0, 0, 0⟩, ⟨"f5", 1024, 0, 1, 0, 0, 0⟩]

/-- C2 counterexample: for five sibling 1024-byte files at level 0
under SMALLEST, scanning in discovery order f1..f5 produces the final
resorted sequence in the reverse of discovery order, not in discovery
order as the claim states, even though the sizes and the total are as
claimed. -/
theorem C2_counterexample :
    exC2.length = 5
    ∧ (∀ x ∈ exC2, x.size = 1024)
    ∧ (scan_items .smallest exC2).total_size = 5120
    ∧ (scan_items .smallest exC2).items = exC2.reverse
    ∧ (scan_items .smallest exC2).items ≠ exC2 := by
  decide

/-- C2 amended: for a scan discovering five items of 1024 bytes each
under SMALLEST, the completed scan holds all five items with size 1024
and total_size 5120, and the final post-resort sequence is the reverse
of discovery order: each tie inserts in front of the existing equal
entries, and the stable final resort preserves that reversed order. -/
theorem C2_five_equal_files (xs : List Item) (h5 : xs.length = 5)
    (hsz : ∀ x ∈ xs, x.size = 1024) :
    (scan_items .smallest xs).items = xs.reverse
    ∧ (scan_items .smallest xs).total_size = 5120
    ∧ ∀ x ∈ (scan_items .smallest xs).items, x.size = 1024 := by
  have hkey : ∀ x ∈ xs, (get_item_sort_key .smallest).1 x = 1024 := by
    intro x hx
    show ((x.size : Int)) = 1024
    rw [hsz x hx]
    rfl
  have hfold := foldl_insert_equal .smallest 1024 xs emptyStore hkey
    (by intro y hy; simp [emptyStore] at hy)
  have hitems : (scan_items .smallest xs).items = xs.reverse := by
    rw [scan_items, resort]
    show resortList .smallest (xs.foldl (fun s x => insert_sorted .smallest x s) emptyStore).items
      = xs.reverse
    rw [hfold]
    simp only [emptyStore, List.append_nil]
    exact resortList_equal .smallest 1024 xs.reverse
      (fun x hx => hkey x (List.mem_reverse.1 hx))
  refine ⟨hitems, ?_, ?_⟩
  · obtain ⟨hts, _⟩ := scan_items_inv .smallest xs
    rw [hts, hitems]
    have hrep : xs.reverse.map (fun x => (x.size : Int))
        = List.replicate 5 (1024 : Int) := by
      have hlen : (xs.reverse.map (fun x => (x.size : Int))).length = 5 := by
        simp [h5]
      have := List.eq_replicate_of_mem (l := xs.reverse.map (fun x => (x.size : Int)))
        (a := (1024 : Int)) ?_
      · rw [this, hlen]
      · intro b hb
        obtain ⟨x, hx, hxb⟩ := List.mem_map.1 hb
        rw [← hxb, hsz x (List.mem_reverse.1 hx)]
        rfl
    rw [hrep]
    decide
  · intro x hx
    rw [hitems] at hx
    exact hsz x (List.mem_reverse.1 hx)

/-- C2 witness: the amended statement evaluated on the concrete
discovery order f1..f5. -/
theorem C2_five_equal_files_witness :
    (scan_items .smallest exC2).items = exC2.reverse
    ∧ (scan_items .smallest exC2).total_size = 5120
    ∧ ∀ x ∈ (scan_items .smallest exC2).items, x.size = 1024 :=
  C2_five_equal_files exC2 (by decide) (by decide)

/-- Concrete counterexample input for C3: a directory whose only entry
is an empty directory. -/
def exC3 : FSNode :=
  .dir ⟨0, 1, 1, 1⟩ [.dir ⟨0, 1, 1, 1⟩ []]

/-- C3 counterexample: the aggregator gives depth 0, not 1, to a
directory whose only child is an empty directory; the claimed rule
depth = 1 + max(children depth) floored at 0 gives 1 on the same tree,
so the code disagrees with the claim. -/
theorem C3_counterexample :
    (get_attributes exC3 0).depth = 0
    ∧ spec_depth exC3 = 1
    ∧ (get_attributes exC3 0).depth ≠ spec_depth exC3 := by
  decide

/-- C3 amended: for every directory the aggregated size is the sum of
the children sizes and num_of_files the sum of the children counts, as
claimed, but the depth is the plain maximum of the children depths
with no 1 + term, 0 for an empty directory (file children already
carry their path depth relative to the level); in particular a
directory whose only child is an empty directory has depth 0, not 1. -/
theorem C3_dir_attributes (st st2 : Stat) (cs : List FSNode) (d : Nat) :
    (get_attributes (.dir st cs) d).size
        = (cs.map (fun c => (get_attributes c (d + 1)).size)).sum
    ∧ (get_attributes (.dir st cs) d).num_of_files
        = (cs.map (fun c => (get_attributes c (d + 1)).num_of_files)).sum
    ∧ (get_attributes (.dir st cs) d).depth
        = (cs.map (fun c => (get_attributes c (d + 1)).depth)).foldr max 0
    ∧ (get_attributes (.dir st [.dir st2 []]) d).depth = 0 := by
  refine ⟨?_, ?_, ?_, ?_⟩
  · show (getAttrsChildren cs d ⟨0, 0, 0, 0, 0, 0⟩).size = _
    rw [getAttrsChildren_size]
    exact Nat.zero_add _
  · show (getAttrsChildren cs d ⟨0, 0, 0, 0, 0, 0⟩).num_of_files = _
    rw [getAttrsChildren_num]
    exact Nat.zero_add _
  · show (getAttrsChildren cs d ⟨0, 0, 0, 0, 0, 0⟩).depth = _
    rw [getAttrsChildren_depth]
    exact Nat.max_eq_right (Nat.zero_le _)
  · show (getAttrsChildren [.dir st2 []] d ⟨0, 0, 0, 0, 0, 0⟩).depth = 0
    rw [getAttrsChildren_depth]
    show max 0 ((getAttrsChildren [] (d + 1) ⟨0, 0, 0, 0, 0, 0⟩).depth.max 0) = 0
    rfl

/-- C4: the running total_size and count stay consistent with the item
sequence: the invariant holds for the empty store set up by the
constructor, is preserved by every on-the-fly insertion, by every
resort and by a whole eviction run, and any completed scan satisfies
it, so total_size equals the exact sum of the stored item sizes and
the count equals the number of stored items throughout. -/
theorem C4_counters_consistent :
    StoreInv emptyStore
    ∧ (∀ (sort_by : SortBy) (x : Item) (s : Store),
        StoreInv s → StoreInv (insert_sorted sort_by x s))
    ∧ (∀ (sort_by : SortBy) (s : Store), StoreInv s → StoreInv (resort sort_by s))
    ∧ (∀ (sort_by : SortBy) (xs : List Item), StoreInv (scan_items sort_by xs))
    ∧ (∀ (fails : Item → Bool) (T : Int) (s : Store) (disk : String → Bool),
        StoreInv s → StoreInv (cleanup_items fails T s disk).store) := by
  refine ⟨⟨rfl, rfl⟩, insert_sorted_inv, resort_inv, scan_items_inv, ?_⟩
  intro fails T s disk hinv
  have hgo := cleanupGo_inv fails T s.items disk ⟨rfl, rfl⟩
  rw [cleanup_items, hinv.1, hinv.2]
  exact hgo

/-- C4 witness: the invariant transported across one concrete
insertion into the empty store. -/
theorem C4_counters_consistent_witness :
    StoreInv (insert_sorted .smallest ⟨"w", 3, 0, 1, 0, 0, 0⟩ emptyStore) :=
  C4_counters_consistent.2.1 .smallest ⟨"w", 3, 0, 1, 0, 0, 0⟩ emptyStore ⟨by decide, by decide⟩

/-- C5: for a consistent store and a non-negative byte threshold T,
when T is at least the running total the eviction run yields nothing,
deletes nothing and leaves store and disk untouched; when T is below
the running total and no physical deletion fails, the run finishes
without error, the resulting total is at most T, the yielded items are
an initial segment of the current order with the remaining items the
matching final segment (items are removed one at a time from the
front), and every yielded item name has been deleted from the disk. -/
theorem C5_threshold (fails : Item → Bool) (T : Nat) (s : Store)
    (disk : String → Bool) (hinv : StoreInv s) (hf : ∀ x, fails x = false) :
    (s.total_size ≤ (T : Int) →
      cleanup_items fails T s disk = ⟨[], s, disk, none⟩)
    ∧ ((T : Int) < s.total_size →
      (cleanup_items fails T s disk).err = none
      ∧ (cleanup_items fails T s disk).store.total_size ≤ (T : Int)
      ∧ (∃ k, (cleanup_items fails T s disk).yielded = s.items.take k
          ∧ (cleanup_items fails T s disk).store.items = s.items.drop k)
      ∧ ∀ y ∈ (cleanup_items fails T s disk).yielded,
          (cleanup_items fails T s disk).disk y.name = false) := by
  constructor
  · intro hle
    have heq : cleanupGo fails T s.items s.total_size s.items_len disk
        = ⟨[], ⟨s.items, s.total_size, s.items_len⟩, disk, none⟩ := by
      cases hl : s.items with
      | nil => exact cleanupGo_nil_le hle
      | cons x xs => exact cleanupGo_cons_le hle
    rw [cleanup_items, heq]
  · intro hlt
    have hmain := cleanupGo_no_fail fails hf T (Int.ofNat_nonneg T) s.items disk
    have hdel := cleanupGo_yielded_deleted fails T s.items
      ((s.items.map (fun x => (x.size : Int))).sum) s.items.length disk
    rw [cleanup_items, hinv.1, hinv.2]
    exact ⟨hmain.1, hmain.2.1, hmain.2.2, hdel⟩

/-- Concrete store for the C5 and C6 witnesses. -/
def exStore : Store :=
  ⟨[⟨"a", 5, 0, 1, 0, 0, 0⟩, ⟨"b", 3, 0, 1, 0, 0, 0⟩], 8, 2⟩

/-- Disk for the C5 and C6 witnesses: every name present. -/
def exDisk : String → Bool :=
  fun _ => true

/-- C5 witness: evicting the concrete two-item store down to 4 bytes. -/
theorem C5_threshold_witness :
    (cleanup_items (fun _ => false) 4 exStore exDisk).err = none
    ∧ (cleanup_items (fun _ => false) 4 exStore exDisk).store.total_size ≤ (4 : Int)
    ∧ (∃ k, (cleanup_items (fun _ => false) 4 exStore exDisk).yielded = exStore.items.take k
        ∧ (cleanup_items (fun _ => false) 4 exStore exDisk).store.items = exStore.items.drop k)
    ∧ ∀ y ∈ (cleanup_items (fun _ => false) 4 exStore exDisk).yielded,
        (cleanup_items (fun _ => false) 4 exStore exDisk).disk y.name = false :=
  (C5_threshold (fun _ => false) 4 exStore exDisk ⟨by decide, by decide⟩ (fun _ => rfl)).2 (by decide)

/-- C6: in each eviction round the bookkeeping is decremented before
the physical deletion is attempted, so when the front deletion raises,
the run stops with the failing item already removed from the sequence
and subtracted from total_size and count while its name is still on
disk, nothing further is evicted and the error escapes; and whatever
stops the run, every previously yielded deletion stands: each yielded
name stays deleted from the disk, and on a failure the yielded items
are exactly the successfully evicted initial segment before the
failing position. -/
theorem C6_failure_semantics (fails : Item → Bool) (T : Int) (s : Store)
    (disk : String → Bool) :
    (∀ x rest, s.items = x :: rest → T < s.total_size → fails x = true →
      cleanup_items fails T s disk
        = ⟨[], ⟨rest, s.total_size - x.size, s.items_len - 1⟩, disk, some .deleteFailed⟩)
    ∧ (∀ y ∈ (cleanup_items fails T s disk).yielded,
        (cleanup_items fails T s disk).disk y.name = false)
    ∧ ((cleanup_items fails T s disk).err = some .deleteFailed →
      ∃ k x, s.items[k]? = some x ∧ fails x = true
        ∧ (cleanup_items fails T s disk).yielded = s.items.take k
        ∧ (cleanup_items fails T s disk).store.items = s.items.drop (k + 1)
        ∧ (cleanup_items fails T s disk).store.total_size
            = s.total_size - ((s.items.take (k + 1)).map (fun i => (i.size : Int))).sum
        ∧ (cleanup_items fails T s disk).store.items_len = s.items_len - (k + 1)
        ∧ ∀ y ∈ (cleanup_items fails T s disk).yielded, fails y = false) := by
  refine ⟨?_, ?_, ?_⟩
  · intro x rest hitems hlt hfx
    rw [cleanup_items, hitems, cleanupGo_cons_fail (not_le.2 hlt) hfx]
  · rw [cleanup_items]
    exact cleanupGo_yielded_deleted fails T s.items s.total_size s.items_len disk
  · rw [cleanup_items]
    exact cleanupGo_fail_char fails T s.items s.total_size s.items_len disk

/-- C6 witness: a concrete eviction in which the single deletion
raises, evaluated through the theorem: the store already shows the
decremented counters, the disk is untouched and the error escapes. -/
theorem C6_failure_semantics_witness :
    cleanup_items (fun _ => true) 4 exStore exDisk
      = ⟨[], ⟨[⟨"b", 3, 0, 1, 0, 0, 0⟩], 3, 1⟩, exDisk, some .deleteFailed⟩ := by
  have h := (C6_failure_semantics (fun _ => true) 4 exStore exDisk).1
    ⟨"a", 5, 0, 1, 0, 0, 0⟩ [⟨"b", 3, 0, 1, 0, 0, 0⟩] rfl (by decide) rfl
  simpa using h

/-- C7: resorting twice by the same criterion gives the same store as
resorting once, for every criterion and every store contents: the
stable sort of an already sorted sequence is that sequence. -/
theorem C7_resort_idempotent (sort_by : SortBy) (s : Store) :
    resort sort_by (resort sort_by s) = resort sort_by s := by
  have hlist : ∀ l : List Item,
      resortList sort_by (resortList sort_by l) = resortList sort_by l := by
    intro l
    simp only [resortList]
    split
    · haveI : IsTotal Item (fun a b =>
          (get_item_sort_key sort_by).1 b ≤ (get_item_sort_key sort_by).1 a) :=
        ⟨fun a b => le_total _ _⟩
      haveI : IsTrans Item (fun a b =>
          (get_item_sort_key sort_by).1 b ≤ (get_item_sort_key sort_by).1 a) :=
        ⟨fun _ _ _ hab hbc => le_trans hbc hab⟩
      exact List.Sorted.insertionSort_eq (List.sorted_insertionSort _ _)
    · haveI : IsTotal Item (fun a b =>
          (get_item_sort_key sort_by).1 a ≤ (get_item_sort_key sort_by).1 b) :=
        ⟨fun a b => le_total _ _⟩
      haveI : IsTrans Item (fun a b =>
          (get_item_sort_key sort_by).1 a ≤ (get_item_sort_key sort_by).1 b) :=
        ⟨fun _ _ _ hab hbc => le_trans hab hbc⟩
      exact List.Sorted.insertionSort_eq (List.sorted_insertionSort _ _)
  show Store.mk (resortList sort_by (resortList sort_by s.items)) s.total_size s.items_len
      = Store.mk (resortList sort_by s.items) s.total_size s.items_len
  rw [hlist]

/-- C8: the size parser maps the canonical unit strings
case-insensitively in powers of 1024, with 1 Kb giving 1024, 1 Mb
giving 1024 * 1024 and 2.4 kb giving 2457 by truncating the product
2457.6 toward zero; and an input whose two-character suffix is not a
recognized unit, whose four-character suffix is not byte, and whose
text does not parse as a float, such as 12 x, yields an error rather
than a value. -/
theorem C8_size_converter :
    human2bytes "1 Kb" = some 1024
    ∧ human2bytes "1 Mb" = some (1024 * 1024)
    ∧ human2bytes "2.4 kb" = some 2457
    ∧ human2bytes "12 x" = none
    ∧ ∀ cs : List Char, symIndex cs = none → byteSuffix cs = false →
        pyFloat cs = none → human2bytesL cs = none := by
  refine ⟨by decide, by decide, by decide, by decide, ?_⟩
  intro cs h1 h2 h3
  rw [human2bytesL, h1, if_neg (by simp [h2]), h3]
  rfl

/-- C8 witness: the failure case of the theorem applied to another
unrecognized-suffix input. -/
theorem C8_size_converter_witness : human2bytesL "5 zz".data = none :=
  C8_size_converter.2.2.2.2 "5 zz".data (by decide) (by decide) (by decide)

/-- Concrete counterexample input for C9: a directory with timestamps
5 whose only file has all three timestamps 0. -/
def exC9 : FSNode :=
  .dir ⟨0, 5, 5, 5⟩ [.file ⟨3, 0, 0, 0⟩]

/-- C9 counterexample: the claim says each timestamp of a summary is
the maximum of that field over the files of the subtree, with the
fallback to the directory stat only for a file-free subtree.  For a
directory whose only file carries all-zero timestamps the aggregated
maxima are all zero, so the fallback fires on a non-empty subtree and
the summary reports the directory stat 5 instead of the subtree
maximum 0. -/
theorem C9_counterexample :
    filesOf exC9 ≠ []
    ∧ subtreeMax Stat.atime exC9 = 0
    ∧ (make_summary "d" exC9 0).atime = 5
    ∧ (make_summary "d" exC9 0).atime ≠ subtreeMax Stat.atime exC9 := by
  decide

/-- C9 amended: for non-negative file timestamps, the three summary
timestamps are each the maximum of the truncated field over the files
of the subtree whenever those three maxima are not all zero; when all
three maxima are zero, which in particular covers every subtree with
no files and so every completely empty directory, the summary instead
carries the truncated timestamps of the entry itself, not a zero
sentinel. -/
theorem C9_timestamps (name : String) (n : FSNode) (d : Nat)
    (h : ∀ st ∈ filesOf n, 0 ≤ st.atime ∧ 0 ≤ st.mtime ∧ 0 ≤ st.ctime) :
    (¬(subtreeMax Stat.atime n = 0 ∧ subtreeMax Stat.mtime n = 0
          ∧ subtreeMax Stat.ctime n = 0) →
      (make_summary name n d).atime = subtreeMax Stat.atime n
      ∧ (make_summary name n d).mtime = subtreeMax Stat.mtime n
      ∧ (make_summary name n d).ctime = subtreeMax Stat.ctime n)
    ∧ ((subtreeMax Stat.atime n = 0 ∧ subtreeMax Stat.mtime n = 0
          ∧ subtreeMax Stat.ctime n = 0) →
      (make_summary name n d).atime = pyInt n.stat.atime
      ∧ (make_summary name n d).mtime = pyInt n.stat.mtime
      ∧ (make_summary name n d).ctime = pyInt n.stat.ctime)
    ∧ (filesOf n = [] →
      (make_summary name n d).atime = pyInt n.stat.atime
      ∧ (make_summary name n d).mtime = pyInt n.stat.mtime
      ∧ (make_summary name n d).ctime = pyInt n.stat.ctime) := by
  obtain ⟨ta, tm, tc⟩ := get_attributes_times n d h
  have hzero : ((get_attributes n d).atime = 0 ∧ (get_attributes n d).mtime = 0
        ∧ (get_attributes n d).ctime = 0)
      ↔ (subtreeMax Stat.atime n = 0 ∧ subtreeMax Stat.mtime n = 0
        ∧ subtreeMax Stat.ctime n = 0) := by
    rw [ta, tm, tc]
  have hpos : ∀ hc : (subtreeMax Stat.atime n = 0 ∧ subtreeMax Stat.mtime n = 0
        ∧ subtreeMax Stat.ctime n = 0),
      (make_summary name n d).atime = pyInt n.stat.atime
      ∧ (make_summary name n d).mtime = pyInt n.stat.mtime
      ∧ (make_summary name n d).ctime = pyInt n.stat.ctime := by
    intro hc
    simp [make_summary, if_pos (hzero.2 hc)]
  refine ⟨?_, hpos, ?_⟩
  · intro hne
    simp only [make_summary, if_neg (fun hx => hne (hzero.1 hx))]
    exact ⟨ta, tm, tc⟩
  · intro hnil
    refine hpos ?_
    simp [subtreeMax_eq_tsMax, hnil, tsMax]

/-- C9 witness: the amended statement evaluated on a directory with a
single file whose timestamps 1, 2, 3 dominate: the summary reports the
subtree maxima. -/
theorem C9_timestamps_witness :
    (make_summary "w" (.dir ⟨0, 7, 7, 7⟩ [.file ⟨2, 1, 2, 3⟩]) 0).atime
        = subtreeMax Stat.atime (.dir ⟨0, 7, 7, 7⟩ [.file ⟨2, 1, 2, 3⟩])
    ∧ (make_summary "w" (.dir ⟨0, 7, 7, 7⟩ [.file ⟨2, 1, 2, 3⟩]) 0).mtime
        = subtreeMax Stat.mtime (.dir ⟨0, 7, 7, 7⟩ [.file ⟨2, 1, 2, 3⟩])
    ∧ (make_summary "w" (.dir ⟨0, 7, 7, 7⟩ [.file ⟨2, 1, 2, 3⟩]) 0).ctime
        = subtreeMax Stat.ctime (.dir ⟨0, 7, 7, 7⟩ [.file ⟨2, 1, 2, 3⟩]) :=
  (C9_timestamps "w" (.dir ⟨0, 7, 7, 7⟩ [.file ⟨2, 1, 2, 3⟩]) 0 (by decide)).1 (by decide)

/-- C10: a plain number with no recognized unit suffix does not make
the parser fail: whenever the two-character suffix is not a recognized
unit, the four-character suffix is not byte, and the whole text parses
as a float, human2bytes returns that value truncated toward zero,
interpreted as a raw byte count, so 400 parses to 400 bytes and 2.5
to 2, not to megabytes as the docstring announces. -/
theorem C10_plain_number :
    (∀ (cs : List Char) (p : PyNum), symIndex cs = none → byteSuffix cs = false →
      pyFloat cs = some p → human2bytesL cs = some (pyTrunc p))
    ∧ human2bytes "400" = some 400
    ∧ human2bytes "2.5" = some 2 := by
  refine ⟨?_, by decide, by decide⟩
  intro cs p h1 h2 h3
  rw [human2bytesL, h1, if_neg (by simp [h2]), h3]
  rfl

/-- C10 witness: the universal part of the theorem applied to the
plain number 3.7. -/
theorem C10_plain_number_witness : human2bytesL "3.7".data = some (pyTrunc (37, 10)) :=
  C10_plain_number.1 "3.7".data (37, 10) (by decide) (by decide) (by decide)
